import Mathlib

/-!
Shallow embedding of the runtime animation engine of the repository
(src/src/animation/mod.rs and src/src/animation/machine/state.rs),
together with theorems settling the behavioural claims about it.

Scalars of the source (f32) are embedded as rationals; the claims under
study are about control flow, ordering and exact interpolation formulas,
not about rounding. Spherical and normalized quaternion interpolation
live in core math code that is outside the embedded sources, so they are
carried as universally quantified function parameters.
-/

namespace Fyrox

abbrev Scalar := ℚ

/-- Modelled from the spec: the three component vector type of the core
math module (not among the embedded sources); componentwise scaling and
linear interpolation. -/
structure Vec3 where
  x : Scalar
  y : Scalar
  z : Scalar
deriving DecidableEq, Repr

instance : Add Vec3 := ⟨fun a b => ⟨a.x + b.x, a.y + b.y, a.z + b.z⟩⟩

def Vec3.scale (v : Vec3) (w : Scalar) : Vec3 := ⟨v.x * w, v.y * w, v.z * w⟩

/-- Modelled from the spec: linear interpolation of vectors, `a + (b - a) * t`
componentwise. -/
def Vec3.lerp (a b : Vec3) (t : Scalar) : Vec3 :=
  ⟨a.x + (b.x - a.x) * t, a.y + (b.y - a.y) * t, a.z + (b.z - a.z) * t⟩

def Vec3.ZERO : Vec3 := ⟨0, 0, 0⟩

def Vec3.UNIT : Vec3 := ⟨1, 1, 1⟩

/-- Quaternion as a four component record. Spherical interpolation (slerp)
and normalized interpolation (nlerp) of the core math module are not among
the embedded sources and involve transcendental functions; theorems
quantify over them as abstract operations. -/
structure Quat where
  qx : Scalar
  qy : Scalar
  qz : Scalar
  qw : Scalar
deriving DecidableEq, Repr

def Quat.IDENTITY : Quat := ⟨0, 0, 0, 1⟩

/-- Abbreviation for an abstract binary quaternion interpolation operation
(slerp or nlerp), taken as a parameter by everything that uses one. -/
abbrev QuatInterp := Quat → Quat → Scalar → Quat

/-- Modelled from the spec: clamping of the core math module (not among the
embedded sources) — clamp `v` into the interval from `lo` to `hi`. -/
def clampf (v lo hi : Scalar) : Scalar :=
  if v < lo then lo else if hi < v then hi else v

/-- Modelled from the spec: wrapping of the core math module (not among the
embedded sources) — wrap `v` into the half open interval from `lo` to `hi`. -/
def wrapf (v lo hi : Scalar) : Scalar :=
  if hi ≤ lo then lo else lo + (hi - lo) * Int.fract ((v - lo) / (hi - lo))

/-- Handle of a scene graph node. The scene graph is an external
collaborator; node handles are opaque indices here. -/
abbrev NodeHandle := Nat

/-- Keyframe: one transform sample on a track (mod.rs, struct KeyFrame). -/
structure KeyFrame where
  position : Vec3
  scale : Vec3
  rotation : Quat
  time : Scalar
deriving DecidableEq, Repr

def KeyFrame.default : KeyFrame := ⟨Vec3.ZERO, Vec3.ZERO, ⟨0, 0, 0, 0⟩, 0⟩

/-- Track: ordered keyframes bound to one node (mod.rs, struct Track). -/
structure Track where
  frames : List KeyFrame
  enabled : Bool
  max_time : Scalar
  node : NodeHandle
deriving Repr

def Track.default : Track := ⟨[], true, 0, 0⟩

/-- Index computed by the insertion loop of add_key_frame: the first index
whose frame has time strictly greater than `t`, defaulting to 0 when no
such frame exists (mod.rs lines 149 to 156). -/
def insertionIndex (t : Scalar) (frames : List KeyFrame) : Nat :=
  match frames.findIdx? (fun k => decide (t < k.time)) with
  | some i => i
  | none => 0

/-- Track::add_key_frame (mod.rs lines 143 to 160): append and update
max_time when the new time is strictly greater, otherwise insert at the
index found by the loop. -/
def Track.add_key_frame (tr : Track) (kf : KeyFrame) : Track :=
  if tr.max_time < kf.time then
    { tr with frames := tr.frames ++ [kf], max_time := kf.time }
  else
    { tr with frames := tr.frames.insertIdx (insertionIndex kf.time tr.frames) kf }

/-- Track::set_key_frames (mod.rs lines 170 to 179): replace the frame set
and recompute max_time from 0 by a linear pass. -/
def Track.set_key_frames (tr : Track) (kfs : List KeyFrame) : Track :=
  { tr with
    frames := kfs
    max_time := kfs.foldl (fun m k => if m < k.time then k.time else m) 0 }

/-- Snapshot of one scene node local transform (mod.rs, struct LocalPose). -/
structure LocalPose where
  node : NodeHandle
  position : Vec3
  scale : Vec3
  rotation : Quat
deriving DecidableEq, Repr

def LocalPose.default : LocalPose := ⟨0, Vec3.ZERO, Vec3.UNIT, Quat.IDENTITY⟩

/-- LocalPose::weighted_clone (mod.rs lines 325 to 332): position scaled by
the weight, rotation nlerped from identity, scale left at the unit factor. -/
def LocalPose.weighted_clone (nlerp : QuatInterp) (p : LocalPose) (weight : Scalar) : LocalPose :=
  { node := p.node
    position := p.position.scale weight
    rotation := nlerp Quat.IDENTITY p.rotation weight
    scale := Vec3.UNIT }

/-- LocalPose::blend_with (mod.rs lines 334 to 338): position incremented by
the scaled other position, rotation nlerped toward the other rotation,
scale untouched. -/
def LocalPose.blend_with (nlerp : QuatInterp) (p other : LocalPose) (weight : Scalar) : LocalPose :=
  { p with
    position := p.position + other.position.scale weight
    rotation := nlerp p.rotation other.rotation weight }

/-- Track::get_local_pose (mod.rs lines 185 to 234). -/
def Track.get_local_pose (slerp : QuatInterp) (tr : Track) (time : Scalar) : Option LocalPose :=
  if tr.frames = [] then none
  else if tr.max_time ≤ time then
    tr.frames.getLast?.map (fun k => ⟨tr.node, k.position, k.scale, k.rotation⟩)
  else
    let t := clampf time 0 tr.max_time
    let right_index :=
      match tr.frames.findIdx? (fun k => decide (t ≤ k.time)) with
      | some i => i
      | none => 0
    if right_index = 0 then
      tr.frames.head?.map (fun k => ⟨tr.node, k.position, k.scale, k.rotation⟩)
    else
      match tr.frames[right_index - 1]?, tr.frames[right_index]? with
      | some left, some right =>
        let interpolator := (t - left.time) / (right.time - left.time)
        some ⟨tr.node,
          left.position.lerp right.position interpolator,
          left.scale.lerp right.scale interpolator,
          slerp left.rotation right.rotation interpolator⟩
      | _, _ => none

/-- AnimationPose: mapping from node handle to LocalPose (mod.rs, struct
AnimationPose). The HashMap is embedded as an association list; lookups
see the first binding of a key. -/
structure AnimationPose where
  local_poses : List (NodeHandle × LocalPose)
deriving Repr

def AnimationPose.empty : AnimationPose := ⟨[]⟩

/-- Lookup of the pose bound to a node handle, the read side of the map. -/
def AnimationPose.lookup (p : AnimationPose) (h : NodeHandle) : Option LocalPose :=
  (p.local_poses.find? (fun e => e.1 == h)).map (fun e => e.2)

/-- AnimationPose::add_local_pose (mod.rs lines 366 to 368): insert keyed by
the node field of the pose. -/
def poseInsert (l : List (NodeHandle × LocalPose)) (lp : LocalPose) :
    List (NodeHandle × LocalPose) :=
  (lp.node, lp) :: l

/-- In place update of the binding of key `h`, the embedding of get_mut
followed by mutation. -/
def poseUpdate : List (NodeHandle × LocalPose) → NodeHandle → LocalPose →
    List (NodeHandle × LocalPose)
  | [], _, _ => []
  | e :: rest, h, lp => (if e.1 == h then (e.1, lp) else e) :: poseUpdate rest h lp

/-- One iteration of the loop of AnimationPose::blend_with (mod.rs lines
354 to 364): blend in place when the target already has a pose, otherwise
insert the weighted clone. -/
def blendStep (nlerp : QuatInterp) (weight : Scalar)
    (acc : List (NodeHandle × LocalPose)) (e : NodeHandle × LocalPose) :
    List (NodeHandle × LocalPose) :=
  match (acc.find? (fun a => a.1 == e.1)).map (fun a => a.2) with
  | some cur => poseUpdate acc e.1 (cur.blend_with nlerp e.2 weight)
  | none => poseInsert acc (e.2.weighted_clone nlerp weight)

/-- AnimationPose::blend_with (mod.rs lines 354 to 364). -/
def AnimationPose.blend_with (nlerp : QuatInterp) (p other : AnimationPose)
    (weight : Scalar) : AnimationPose :=
  ⟨other.local_poses.foldl (blendStep nlerp weight) p.local_poses⟩

/-- AnimationPose::reset (mod.rs lines 370 to 372). -/
def AnimationPose.reset (_p : AnimationPose) : AnimationPose := ⟨[]⟩

/-- AnimationSignal (mod.rs, struct AnimationSignal). -/
structure AnimationSignal where
  id : Nat
  time : Scalar
  enabled : Bool
deriving DecidableEq, Repr

/-- AnimationSignal::new (mod.rs lines 250 to 256). -/
def AnimationSignal.new (id : Nat) (time : Scalar) : AnimationSignal :=
  ⟨id, time, true⟩

/-- AnimationSignal::set_enabled (mod.rs lines 258 to 260). -/
def AnimationSignal.set_enabled (s : AnimationSignal) (value : Bool) : AnimationSignal :=
  { s with enabled := value }

/-- AnimationEvent (mod.rs, struct AnimationEvent). -/
structure AnimationEvent where
  signal_id : Nat
deriving DecidableEq, Repr

/-- Reference track data inside the source resource, read by resolve: a
reference animation is its list of tracks. -/
structure RefAnimation where
  tracks : List Track
deriving Repr

/-- The slice of a Model resource that resolve reads: the first region is
the animation pool of the resource scene (a list of slots, a freed slot
holding none), the second the name table of the resource scene graph. -/
structure ModelResource where
  animations : List (Option RefAnimation)
  graphName : NodeHandle → String

/-- Name table of the external scene graph: the only graph access the
embedded code performs is reading the name of a node. -/
abbrev GraphNames := NodeHandle → String

/-- Animation (mod.rs, struct Animation). The shared resource reference is
embedded as an optional immutable resource value. -/
structure Animation where
  tracks : List Track
  length : Scalar
  time_position : Scalar
  speed : Scalar
  looped : Bool
  enabled : Bool
  resource : Option ModelResource
  pose : AnimationPose
  signals : List AnimationSignal
  events : List AnimationEvent

/-- Default for Animation (mod.rs lines 602 to 617). -/
def Animation.default : Animation :=
  { tracks := []
    length := 0
    time_position := 0
    speed := 1
    looped := true
    enabled := true
    resource := none
    pose := AnimationPose.empty
    signals := []
    events := [] }

/-- Animation::add_track (mod.rs lines 408 to 416). -/
def Animation.add_track (a : Animation) (tr : Track) : Animation :=
  let tracks := a.tracks ++ [tr]
  { a with
    tracks := tracks
    length := tracks.foldl (fun len t => if len < t.max_time then t.max_time else len) a.length }

/-- Animation::set_time_position (mod.rs lines 422 to 429). -/
def Animation.set_time_position (a : Animation) (time : Scalar) : Animation :=
  if a.looped then
    { a with time_position := wrapf time 0 a.length }
  else
    { a with time_position := clampf time 0 a.length }

/-- Animation::rewind (mod.rs lines 431 to 433). -/
def Animation.rewind (a : Animation) : Animation :=
  a.set_time_position 0

/-- Animation::set_enabled (mod.rs lines 478 to 481). -/
def Animation.set_enabled (a : Animation) (enabled : Bool) : Animation :=
  { a with enabled := enabled }

/-- Animation::update_pose (mod.rs lines 586 to 595): reset the pose cache
and refill it from every enabled track at the current time position. -/
def Animation.update_pose (slerp : QuatInterp) (a : Animation) : Animation :=
  { a with
    pose := ⟨a.tracks.foldl (fun acc tr =>
      if tr.enabled then
        match tr.get_local_pose slerp a.time_position with
        | some lp => poseInsert acc lp
        | none => acc
      else acc) []⟩ }

/-- Signal loop of Animation::tick (mod.rs lines 441 to 448): enqueue an
event for every strictly forward crossed signal while the queue holds
fewer than 32 events. -/
def processSignals : List AnimationSignal → Scalar → Scalar → List AnimationEvent →
    List AnimationEvent
  | [], _, _, events => events
  | s :: rest, t0, t1, events =>
    processSignals rest t0 t1
      (if t0 < s.time ∧ s.time ≤ t1 then
        if events.length < 32 then events ++ [⟨s.id⟩] else events
      else events)

/-- Animation::tick (mod.rs lines 435 to 451): update the pose cache,
enqueue events for crossed signals, commit the new time position. -/
def Animation.tick (slerp : QuatInterp) (a : Animation) (dt : Scalar) : Animation :=
  let a1 := a.update_pose slerp
  let current_time_position := a1.time_position
  let new_time_position := current_time_position + dt * a1.speed
  let a2 := { a1 with
    events := processSignals a1.signals current_time_position new_time_position a1.events }
  a2.set_time_position new_time_position

/-- Animation::pop_event (mod.rs lines 453 to 455): dequeue from the front. -/
def Animation.pop_event (a : Animation) : Option AnimationEvent × Animation :=
  match a.events with
  | [] => (none, a)
  | e :: rest => (some e, { a with events := rest })

/-- Animation::resolve (mod.rs lines 546 to 584): for every track, copy the
keyframes of the first reference track of the first resource animation
whose bound node name matches, leaving the track untouched when none does. -/
def Animation.resolve (graph : GraphNames) (a : Animation) : Animation :=
  match a.resource with
  | none => a
  | some res =>
    match (res.animations[0]?).bind id with
    | none => a
    | some ref_animation =>
      { a with tracks := a.tracks.map (fun track =>
          match ref_animation.tracks.find?
              (fun ref_track => graph track.node == res.graphName ref_track.node) with
          | some ref_track => track.set_key_frames ref_track.frames
          | none => track) }

/-- Handle into the generational arena: slot index plus generation. -/
structure PoolHandle where
  index : Nat
  generation : Nat
deriving DecidableEq, Repr

/-- One slot of the arena: its current generation and an optional payload,
none when the slot has been freed. -/
structure PoolRecord (α : Type) where
  generation : Nat
  payload : Option α

/-- Modelled from the spec: the core pool (not among the embedded sources)
is a generational index arena — a stable integer handle plus a generation
counter that detects use of stale handles after removal; freed slots
remain allocated so that later lookups with old handles fail explicitly. -/
structure Pool (α : Type) where
  records : List (PoolRecord α)

def Pool.new {α : Type} : Pool α := ⟨[]⟩

/-- Modelled from the spec: capacity of the arena is its number of
allocated slots, freed ones included. -/
def Pool.get_capacity {α : Type} (p : Pool α) : Nat := p.records.length

/-- Modelled from the spec: spawn reuses the first freed slot, bumping its
generation, and otherwise appends a fresh slot; the returned handle holds
the slot index and its new generation. -/
def Pool.spawn {α : Type} (p : Pool α) (v : α) : PoolHandle × Pool α :=
  match p.records.findIdx? (fun r => r.payload.isNone) with
  | some i =>
    let g := ((p.records[i]?).map (fun r => r.generation + 1)).getD 0
    (⟨i, g⟩, ⟨p.records.set i ⟨g, some v⟩⟩)
  | none =>
    (⟨p.records.length, 0⟩, ⟨p.records ++ [⟨0, some v⟩]⟩)

/-- Modelled from the spec: freeing empties the payload of the addressed
slot when the handle is current, keeping the slot allocated. -/
def Pool.free {α : Type} (p : Pool α) (h : PoolHandle) : Pool α :=
  ⟨(p.records.mapIdx (fun i r =>
    if i = h.index ∧ r.generation = h.generation then ⟨r.generation, none⟩ else r))⟩

/-- Modelled from the spec: clearing deallocates every slot of the arena. -/
def Pool.clear {α : Type} (_p : Pool α) : Pool α := ⟨[]⟩

/-- Modelled from the spec: a try borrow style access returns an explicit
not found outcome for an out of range index, a freed slot or a stale
generation. -/
def Pool.try_get {α : Type} (p : Pool α) (h : PoolHandle) : Option α :=
  match p.records[h.index]? with
  | some r => if r.generation = h.generation then r.payload else none
  | none => none

/-- Update of the payload addressed by a handle, the embedding of
try_get_mut followed by mutation; a miss leaves the arena unchanged. -/
def Pool.update {α : Type} (p : Pool α) (h : PoolHandle) (f : α → α) : Pool α :=
  ⟨p.records.mapIdx (fun i r =>
    if i = h.index ∧ r.generation = h.generation then
      ⟨r.generation, r.payload.map f⟩
    else r)⟩

/-- AnimationContainer (mod.rs, struct AnimationContainer). -/
structure AnimationContainer where
  pool : Pool Animation

/-- AnimationContainer::new (mod.rs lines 647 to 651). -/
def AnimationContainer.new : AnimationContainer := ⟨Pool.new⟩

/-- AnimationContainer::add (mod.rs lines 674 to 676). -/
def AnimationContainer.add (c : AnimationContainer) (a : Animation) :
    PoolHandle × AnimationContainer :=
  let r := c.pool.spawn a
  (r.1, ⟨r.2⟩)

/-- AnimationContainer::remove (mod.rs lines 679 to 681). -/
def AnimationContainer.remove (c : AnimationContainer) (h : PoolHandle) : AnimationContainer :=
  ⟨c.pool.free h⟩

/-- AnimationContainer::clear (mod.rs lines 684 to 686). -/
def AnimationContainer.clear (c : AnimationContainer) : AnimationContainer :=
  ⟨c.pool.clear⟩

/-- Number of animations the container actually holds (occupied slots). -/
def AnimationContainer.aliveCount (c : AnimationContainer) : Nat :=
  (c.pool.records.filter (fun r => r.payload.isSome)).length

/-- AnimationContainer::update_animations (mod.rs lines 711 to 715): tick
exactly the enabled animations. -/
def AnimationContainer.update_animations (slerp : QuatInterp)
    (c : AnimationContainer) (dt : Scalar) : AnimationContainer :=
  ⟨⟨c.pool.records.map (fun r =>
    match r.payload with
    | some a => if a.enabled then ⟨r.generation, some (a.tick slerp dt)⟩ else r
    | none => r)⟩⟩

/-- Reading side of Visit for AnimationContainer (mod.rs lines 718 to 730):
loading aborts (fatal precondition) when the pool capacity is nonzero,
and otherwise replaces the pool with the deserialized one. -/
def AnimationContainer.visitLoad (c : AnimationContainer) (input : Pool Animation) :
    Except String AnimationContainer :=
  if c.pool.get_capacity ≠ 0 then
    Except.error "Animation pool must be empty on load!"
  else
    Except.ok ⟨input⟩

/-- StateAction (state.rs, enum StateAction). The random choice of
EnableRandomAnimation carries the chosen index as explicit data, keeping
the dispatch deterministic in the embedding. -/
inductive StateAction where
  | none : StateAction
  | rewindAnimation : PoolHandle → StateAction
  | enableAnimation : PoolHandle → StateAction
  | disableAnimation : PoolHandle → StateAction
  | enableRandomAnimation : List PoolHandle → Nat → StateAction

/-- StateAction::apply (state.rs lines 85 to 113): dispatch by tag; an
absent handle is a silent no op. -/
def StateAction.apply (act : StateAction) (animations : AnimationContainer) :
    AnimationContainer :=
  match act with
  | .none => animations
  | .rewindAnimation h =>
    match animations.pool.try_get h with
    | some _ => ⟨animations.pool.update h (fun a => a.rewind)⟩
    | Option.none => animations
  | .enableAnimation h =>
    match animations.pool.try_get h with
    | some _ => ⟨animations.pool.update h (fun a => a.set_enabled true)⟩
    | Option.none => animations
  | .disableAnimation h =>
    match animations.pool.try_get h with
    | some _ => ⟨animations.pool.update h (fun a => a.set_enabled false)⟩
    | Option.none => animations
  | .enableRandomAnimation handles choice =>
    match handles[choice]? with
    | some h =>
      match animations.pool.try_get h with
      | some _ => ⟨animations.pool.update h (fun a => a.set_enabled true)⟩
      | Option.none => animations
    | Option.none => animations

/-! Theorems. -/

/-- Non-decreasing time order of a frame list. -/
abbrev timeSorted (frames : List KeyFrame) : Prop :=
  List.Pairwise (fun a b => a.time ≤ b.time) frames

/-- Keyframe that differs from the default one only in its time. -/
def kfAt (t : Scalar) : KeyFrame := { KeyFrame.default with time := t }

lemma timeSorted_insertIdx {kf : KeyFrame} :
    ∀ (frames : List KeyFrame) (i : Nat), timeSorted frames → i ≤ frames.length →
    (∀ f ∈ frames.take i, f.time ≤ kf.time) →
    (∀ h : i < frames.length, kf.time ≤ (frames.get ⟨i, h⟩).time) →
    timeSorted (frames.insertIdx i kf)
  | frames, 0, hs, _hle, _htake, hat => by
    cases frames with
    | nil => simp [timeSorted]
    | cons f rest =>
      rw [List.insertIdx_zero]
      rw [timeSorted, List.pairwise_cons]
      refine ⟨?_, hs⟩
      intro y hy
      have hkf : kf.time ≤ f.time := hat (by simp)
      rcases List.mem_cons.mp hy with h | h
      · exact h ▸ hkf
      · rw [timeSorted, List.pairwise_cons] at hs
        exact le_trans hkf (hs.1 y h)
  | f :: rest, j + 1, hs, hle, htake, hat => by
    rw [List.insertIdx_succ_cons]
    rw [timeSorted, List.pairwise_cons] at hs ⊢
    have hjle : j ≤ rest.length := Nat.le_of_succ_le_succ hle
    refine ⟨?_, timeSorted_insertIdx rest j hs.2 hjle ?_ ?_⟩
    · intro y hy
      rcases (List.mem_insertIdx hjle).mp hy with h | h
      · subst h
        exact htake f (by simp)
      · exact hs.1 y h
    · intro g hg
      exact htake g (by simpa using Or.inr hg)
    · intro h
      exact hat (Nat.succ_lt_succ h)

/-- C1 is refuted on a concrete run: building a track through the public
interface with frames at times 1 then 2 (sorted), a further add_key_frame
at time 2 (equal to max_time) inserts at index 0 and yields frame times
2, 1, 2 — no longer in non-decreasing order, and not placed before the
first frame whose time is not less than 2. -/
theorem claim1_counterexample :
    timeSorted (((Track.default.add_key_frame (kfAt 1)).add_key_frame (kfAt 2)).frames) ∧
    ((((Track.default.add_key_frame (kfAt 1)).add_key_frame (kfAt 2)).add_key_frame
        (kfAt 2)).frames.map KeyFrame.time = [2, 1, 2]) ∧
    ¬ timeSorted ((((Track.default.add_key_frame (kfAt 1)).add_key_frame (kfAt 2)).add_key_frame
        (kfAt 2)).frames) := by
  refine ⟨by decide, by decide, by decide⟩

/-- C1 amended: on a track whose frames are in non-decreasing time order
and bounded by max_time, add_key_frame appends when kf.time is strictly
greater than max_time (updating max_time, order preserved); otherwise it
inserts before the first frame whose time is strictly greater than
kf.time when such a frame exists (order preserved, frames of equal time
staying before the new one); when no frame has strictly greater time the
new frame is inserted at index 0, in front of the whole list. -/
theorem claim1_add_key_frame_order (tr : Track) (kf : KeyFrame)
    (hsort : timeSorted tr.frames)
    (hbound : ∀ f ∈ tr.frames, f.time ≤ tr.max_time) :
    (tr.max_time < kf.time →
      (tr.add_key_frame kf).frames = tr.frames ++ [kf] ∧
      (tr.add_key_frame kf).max_time = kf.time ∧
      timeSorted (tr.add_key_frame kf).frames) ∧
    ((h2 : ¬ tr.max_time < kf.time) → (f : KeyFrame) → f ∈ tr.frames → kf.time < f.time →
      ∃ i, ∃ hi : i < tr.frames.length,
        kf.time < (tr.frames.get ⟨i, hi⟩).time ∧
        (∀ j (hj : j < i), (tr.frames.get ⟨j, Nat.lt_trans hj hi⟩).time ≤ kf.time) ∧
        (tr.add_key_frame kf).frames = tr.frames.insertIdx i kf ∧
        timeSorted (tr.add_key_frame kf).frames) ∧
    ((h2 : ¬ tr.max_time < kf.time) → (∀ f ∈ tr.frames, f.time ≤ kf.time) →
      (tr.add_key_frame kf).frames = kf :: tr.frames) := by
  refine ⟨?_, ?_, ?_⟩
  · intro hgt
    rw [Track.add_key_frame, if_pos hgt]
    refine ⟨rfl, rfl, ?_⟩
    rw [timeSorted, List.pairwise_append]
    refine ⟨hsort, by simp, ?_⟩
    intro a ha b hb
    rw [List.mem_singleton] at hb
    subst hb
    exact le_of_lt (lt_of_le_of_lt (hbound a ha) hgt)
  · intro h2 f hf hlt
    obtain ⟨i, hfind⟩ : ∃ i, tr.frames.findIdx? (fun k => decide (kf.time < k.time)) = some i :=
      ⟨_, List.findIdx?_eq_some_of_exists ⟨f, hf, by simpa using hlt⟩⟩
    obtain ⟨hi, hp, hprev⟩ := List.findIdx?_eq_some_iff_getElem.mp hfind
    refine ⟨i, hi, by simpa using hp, ?_, ?_, ?_⟩
    · intro j hj
      have hj2 := hprev j hj
      simp only [decide_eq_true_eq] at hj2
      simpa using le_of_not_lt hj2
    · rw [Track.add_key_frame, if_neg h2, insertionIndex, hfind]
    · rw [Track.add_key_frame, if_neg h2, insertionIndex, hfind]
      refine timeSorted_insertIdx tr.frames i hsort (le_of_lt hi) ?_ ?_
      · intro g hg
        obtain ⟨j, hm, hjg⟩ := List.mem_take_iff_getElem.mp hg
        have hji : j < i := lt_of_lt_of_le hm (min_le_left i tr.frames.length)
        have hj2 := hprev j hji
        simp only [decide_eq_true_eq] at hj2
        rw [hjg] at hj2
        exact le_of_not_lt hj2
      · intro h
        exact le_of_lt (by simpa using hp)
  · intro h2 hall
    have hnone : tr.frames.findIdx? (fun k => decide (kf.time < k.time)) = none := by
      rw [List.findIdx?_eq_none_iff]
      intro x hx
      simpa using not_lt.mpr (hall x hx)
    rw [Track.add_key_frame, if_neg h2, insertionIndex, hnone, List.insertIdx_zero]

/-- Witness for C1 at concrete inputs: appending time 2 after time 1, and
inserting time 2 between times 1 and 3, both preserve order. -/
theorem claim1_witness :
    ((Track.mk [kfAt 1] true 1 0).add_key_frame (kfAt 2)).frames = [kfAt 1, kfAt 2] ∧
    timeSorted ((Track.mk [kfAt 1, kfAt 3] true 3 0).add_key_frame (kfAt 2)).frames := by
  have h1 := claim1_add_key_frame_order (Track.mk [kfAt 1] true 1 0) (kfAt 2)
    (by decide) (by decide)
  have h2 := claim1_add_key_frame_order (Track.mk [kfAt 1, kfAt 3] true 3 0) (kfAt 2)
    (by decide) (by decide)
  refine ⟨(h1.1 (by decide)).1, ?_⟩
  obtain ⟨i, hi, _, _, _, hsorted⟩ := h2.2.1 (by decide) (kfAt 3) (by decide) (by decide)
  exact hsorted

/-- C3 is refuted on a concrete run: a container that held one animation
which was then removed holds no animation, yet loading into it still
takes the fatal path, because the capacity check counts allocated slots
and freeing does not deallocate. -/
theorem claim3_counterexample :
    let r := AnimationContainer.new.add Animation.default
    let c2 := r.2.remove r.1
    c2.aliveCount = 0 ∧
    c2.visitLoad Pool.new = Except.error "Animation pool must be empty on load!" := by
  exact ⟨rfl, rfl⟩

/-- C3 amended: loading takes the fatal path exactly when the pool has
nonzero capacity (allocated slots). A fresh or cleared container has
capacity 0 and loads without aborting; adding an animation makes the
capacity nonzero and removal never shrinks it, so a container that ever
held an animation keeps aborting until cleared. -/
theorem claim3_load_abort (c : AnimationContainer) (input : Pool Animation) :
    (c.visitLoad input = Except.error "Animation pool must be empty on load!" ↔
      c.pool.get_capacity ≠ 0) ∧
    (c.pool.get_capacity = 0 → c.visitLoad input = Except.ok ⟨input⟩) ∧
    AnimationContainer.new.pool.get_capacity = 0 ∧
    c.clear.pool.get_capacity = 0 ∧
    (∀ h, (c.remove h).pool.get_capacity = c.pool.get_capacity) ∧
    (∀ a, ((c.add a).2).pool.get_capacity ≠ 0) := by
  refine ⟨?_, ?_, rfl, rfl, ?_, ?_⟩
  · constructor
    · intro he hc
      rw [AnimationContainer.visitLoad, if_neg (by simpa using hc)] at he
      exact Except.noConfusion he
    · intro hc
      rw [AnimationContainer.visitLoad, if_pos hc]
  · intro hc
    rw [AnimationContainer.visitLoad, if_neg (by simp [hc])]
  · intro h
    simp [AnimationContainer.remove, Pool.free, Pool.get_capacity]
  · intro a
    rw [AnimationContainer.add, Pool.get_capacity]
    cases hfind : c.pool.records.findIdx? (fun r => r.payload.isNone) with
    | none => simp [Pool.spawn, hfind]
    | some i =>
      obtain ⟨hi, -, -⟩ := List.findIdx?_eq_some_iff_getElem.mp hfind
      simp only [Pool.spawn, hfind, List.length_set]
      omega

/-- Witness for C3 amended: a fresh container loads without aborting, and
after an add and a remove the capacity is still nonzero. -/
theorem claim3_witness :
    AnimationContainer.new.visitLoad Pool.new = Except.ok ⟨Pool.new⟩ ∧
    (((AnimationContainer.new.add Animation.default).2.remove
        (AnimationContainer.new.add Animation.default).1).visitLoad Pool.new =
      Except.error "Animation pool must be empty on load!") := by
  refine ⟨(claim3_load_abort AnimationContainer.new Pool.new).2.1 rfl, ?_⟩
  exact (claim3_load_abort ((AnimationContainer.new.add Animation.default).2.remove
    (AnimationContainer.new.add Animation.default).1) Pool.new).1.mpr (by decide)

/-- Bounds of the clamping helper on a nonnegative interval. -/
lemma clampf_bounds (t L : Scalar) (h : 0 ≤ L) :
    0 ≤ clampf t 0 L ∧ clampf t 0 L ≤ L := by
  rw [clampf]
  split
  · exact ⟨le_refl 0, h⟩
  · split
    · exact ⟨h, le_refl L⟩
    · constructor
      · exact le_of_not_lt (by assumption)
      · exact le_of_not_lt (by assumption)

/-- Bounds of the wrapping helper on a positive interval. -/
lemma wrapf_bounds (t L : Scalar) (h : 0 < L) :
    0 ≤ wrapf t 0 L ∧ wrapf t 0 L < L := by
  rw [wrapf, if_neg (not_le.mpr h)]
  simp only [sub_zero, zero_add]
  constructor
  · exact mul_nonneg (le_of_lt h) (Int.fract_nonneg _)
  · calc L * Int.fract (t / L) < L * 1 :=
          mul_lt_mul_of_pos_left (Int.fract_lt_one _) h
      _ = L := mul_one L

/-- C4: after set_time_position, rewind or tick (any dt, any speed, the
speed possibly negative), the time position lies in the closed interval
from 0 to length when not looped, and is wrapped into the half open
interval when looped (the looped interval being nonempty, i.e. length
positive). -/
theorem claim4_time_position_bounds (slerp : QuatInterp) (a : Animation)
    (time dt : Scalar) (hlen : 0 ≤ a.length) :
    (¬ a.looped = true →
      (0 ≤ (a.set_time_position time).time_position ∧
        (a.set_time_position time).time_position ≤ a.length) ∧
      (0 ≤ a.rewind.time_position ∧ a.rewind.time_position ≤ a.length) ∧
      (0 ≤ (a.tick slerp dt).time_position ∧ (a.tick slerp dt).time_position ≤ a.length)) ∧
    (a.looped = true → 0 < a.length →
      (0 ≤ (a.set_time_position time).time_position ∧
        (a.set_time_position time).time_position < a.length) ∧
      (0 ≤ a.rewind.time_position ∧ a.rewind.time_position < a.length) ∧
      (0 ≤ (a.tick slerp dt).time_position ∧ (a.tick slerp dt).time_position < a.length)) := by
  constructor
  · intro hnl
    have hl : a.looped = false := by simpa using hnl
    refine ⟨?_, ?_, ?_⟩
    · simp only [Animation.set_time_position, hl, Bool.false_eq_true, if_false]
      exact clampf_bounds time a.length hlen
    · simp only [Animation.rewind, Animation.set_time_position, hl,
        Bool.false_eq_true, if_false]
      exact clampf_bounds 0 a.length hlen
    · simp only [Animation.tick, Animation.update_pose, Animation.set_time_position, hl,
        Bool.false_eq_true, if_false]
      exact clampf_bounds _ a.length hlen
  · intro hl hpos
    refine ⟨?_, ?_, ?_⟩
    · simp only [Animation.set_time_position, hl, if_true]
      exact wrapf_bounds time a.length hpos
    · simp only [Animation.rewind, Animation.set_time_position, hl, if_true]
      exact wrapf_bounds 0 a.length hpos
    · simp only [Animation.tick, Animation.update_pose, Animation.set_time_position, hl,
        if_true]
      exact wrapf_bounds _ a.length hpos

/-- Witness for C4 at concrete animations of length 10: setting the time
position to 12 stays in bounds, clamped when not looped and wrapped when
looped. -/
theorem claim4_witness :
    (0 ≤ (({ Animation.default with length := 10, looped := false } : Animation).set_time_position
        12).time_position ∧
      (({ Animation.default with length := 10, looped := false } : Animation).set_time_position
        12).time_position ≤
        ({ Animation.default with length := 10, looped := false } : Animation).length) ∧
    (0 ≤ (({ Animation.default with length := 10 } : Animation).set_time_position
        12).time_position ∧
      (({ Animation.default with length := 10 } : Animation).set_time_position
        12).time_position <
        ({ Animation.default with length := 10 } : Animation).length) := by
  constructor
  · exact ((claim4_time_position_bounds (fun q _ _ => q)
      { Animation.default with length := 10, looped := false } 12 0 (by decide)).1
      (by decide)).1
  · exact ((claim4_time_position_bounds (fun q _ _ => q)
      { Animation.default with length := 10 } 12 0 (by decide)).2 rfl (by decide)).1

/-- Events of the signals strictly forward crossed by a move from t0 to
t1, in signal order. -/
def crossedEvents (signals : List AnimationSignal) (t0 t1 : Scalar) : List AnimationEvent :=
  (signals.filter (fun s => decide (t0 < s.time ∧ s.time ≤ t1))).map (fun s => ⟨s.id⟩)

/-- The signal loop appends exactly the crossed events, truncated to what
fits under the 32 entry cap, in signal order. -/
lemma processSignals_eq (signals : List AnimationSignal) (t0 t1 : Scalar) :
    ∀ events, processSignals signals t0 t1 events =
      events ++ (crossedEvents signals t0 t1).take (32 - events.length) := by
  induction signals with
  | nil =>
    intro events
    simp [processSignals, crossedEvents]
  | cons s rest ih =>
    intro events
    simp only [crossedEvents] at ih ⊢
    by_cases hc : t0 < s.time ∧ s.time ≤ t1
    · rw [List.filter_cons_of_pos (by simpa using hc), List.map_cons]
      by_cases hlen : events.length < 32
      · rw [processSignals, if_pos hc, if_pos hlen, ih]
        have hsub : 32 - events.length =
            (32 - (events ++ [AnimationEvent.mk s.id]).length) + 1 := by
          simp only [List.length_append, List.length_cons, List.length_nil]
          omega
        rw [hsub, List.take_succ_cons]
        simp
      · rw [processSignals, if_pos hc, if_neg hlen, ih]
        have hsub : 32 - events.length = 0 := by omega
        rw [hsub, List.take_zero, List.take_zero]
    · rw [List.filter_cons_of_neg (by simpa using hc), processSignals, if_neg hc, ih]

/-- Event queue after a tick: the old queue followed by the crossed events
that fit under the cap. -/
lemma tick_events_eq (slerp : QuatInterp) (a : Animation) (dt : Scalar) :
    (a.tick slerp dt).events =
      a.events ++ (crossedEvents a.signals a.time_position
        (a.time_position + dt * a.speed)).take (32 - a.events.length) := by
  simp only [Animation.tick, Animation.update_pose, Animation.set_time_position]
  split
  · simp [processSignals_eq]
  · simp [processSignals_eq]

/-- C2: a tick enqueues, in signal order, exactly one event per strictly
forward crossed signal while fewer than 32 events are queued, silently
dropping the rest; a signal that is not strictly forward crossed (also
under negative speed) contributes nothing; pop_event consumes from the
front of the queue, oldest first. -/
theorem claim2_tick_events (slerp : QuatInterp) (a : Animation) (dt : Scalar) :
    ((a.tick slerp dt).events =
      a.events ++ (crossedEvents a.signals a.time_position
        (a.time_position + dt * a.speed)).take (32 - a.events.length)) ∧
    (∀ e ∈ (a.tick slerp dt).events, e ∈ a.events ∨
      ∃ s ∈ a.signals, e.signal_id = s.id ∧ a.time_position < s.time ∧
        s.time ≤ a.time_position + dt * a.speed) ∧
    (a.events = [] → a.pop_event = (none, a)) ∧
    (∀ e rest, a.events = e :: rest →
      a.pop_event = (some e, { a with events := rest })) := by
  have hev := tick_events_eq slerp a dt
  refine ⟨hev, ?_, ?_, ?_⟩
  · intro e he
    rw [hev] at he
    rcases List.mem_append.mp he with h | h
    · exact Or.inl h
    · right
      have h2 := List.mem_of_mem_take h
      rw [crossedEvents] at h2
      obtain ⟨s, hs, hse⟩ := List.mem_map.mp h2
      obtain ⟨hmem, hcond⟩ := List.mem_filter.mp hs
      simp only [decide_eq_true_eq] at hcond
      exact ⟨s, hmem, by rw [← hse], hcond.1, hcond.2⟩
  · intro h
    rw [Animation.pop_event, h]
  · intro e rest h
    rw [Animation.pop_event, h]

/-- Concrete animation for the C2 witness: length 10, time position 4, one
signal with id 7 at time 5. -/
def sigAnim : Animation :=
  { Animation.default with length := 10, time_position := 4, signals := [AnimationSignal.new 7 5] }

/-- Witness for C2: one signal with id 7 at time 5, ticking from time 4 by
2 enqueues exactly the one event, and popping returns it first. -/
theorem claim2_witness :
    (sigAnim.tick (fun q _ _ => q) 2).events = [⟨7⟩] ∧
    ((sigAnim.tick (fun q _ _ => q) 2).pop_event).1 = some ⟨7⟩ := by
  have h1 := (claim2_tick_events (fun q _ _ => q) sigAnim 2).1
  have hev : (sigAnim.tick (fun q _ _ => q) 2).events = [⟨7⟩] := by
    rw [h1]
    norm_num [sigAnim, Animation.default, AnimationSignal.new, crossedEvents]
  refine ⟨hev, ?_⟩
  have h2 := (claim2_tick_events (fun q _ _ => q)
    (sigAnim.tick (fun q _ _ => q) 2) 0).2.2.2 ⟨7⟩ [] hev
  rw [h2]

/-- C8: update_animations ticks exactly the animations whose enabled flag
is true; a disabled or freed slot is left identical (same record, hence
same time position, pose cache and event queue, and no generated event). -/
theorem claim8_update_animations (slerp : QuatInterp) (c : AnimationContainer) (dt : Scalar) :
    ((c.update_animations slerp dt).pool.records.length = c.pool.records.length) ∧
    (∀ (i : Nat) (r : PoolRecord Animation), c.pool.records[i]? = some r →
      (r.payload = none → (c.update_animations slerp dt).pool.records[i]? = some r) ∧
      (∀ a : Animation, r.payload = some a → a.enabled = false →
        (c.update_animations slerp dt).pool.records[i]? = some r) ∧
      (∀ a : Animation, r.payload = some a → a.enabled = true →
        (c.update_animations slerp dt).pool.records[i]? =
          some ⟨r.generation, some (a.tick slerp dt)⟩)) := by
  refine ⟨by simp [AnimationContainer.update_animations], ?_⟩
  intro i r hr
  refine ⟨?_, ?_, ?_⟩
  · intro hp
    simp [AnimationContainer.update_animations, hr, hp]
  · intro a hp hen
    simp [AnimationContainer.update_animations, hr, hp, hen]
  · intro a hp hen
    simp [AnimationContainer.update_animations, hr, hp, hen]

/-- Disabled animation used by the C8 witness. -/
def disAnim : Animation := { Animation.default with enabled := false }

/-- Container holding one enabled and one disabled animation, for the C8
witness. -/
def twoAnimContainer : AnimationContainer :=
  ((AnimationContainer.new.add Animation.default).2.add disAnim).2

/-- Witness for C8: in a container with an enabled animation in slot 0 and
a disabled one in slot 1, updating leaves slot 1 untouched and ticks
slot 0. -/
theorem claim8_witness :
    (twoAnimContainer.update_animations (fun q _ _ => q) 1).pool.records[1]? =
      some ⟨0, some disAnim⟩ ∧
    (twoAnimContainer.update_animations (fun q _ _ => q) 1).pool.records[0]? =
      some ⟨0, some (Animation.default.tick (fun q _ _ => q) 1)⟩ := by
  have h := claim8_update_animations (fun q _ _ => q) twoAnimContainer 1
  exact ⟨(h.2 1 ⟨0, some disAnim⟩ rfl).2.1 disAnim rfl rfl,
    (h.2 0 ⟨0, some Animation.default⟩ rfl).2.2 Animation.default rfl rfl⟩

/-- A lookup that succeeds keeps succeeding through an update at the same
handle, returning the updated payload. -/
lemma try_get_update_self {α : Type} (p : Pool α) (h : PoolHandle) (f : α → α) (a : α)
    (ha : p.try_get h = some a) : (p.update h f).try_get h = some (f a) := by
  cases hrec : p.records[h.index]? with
  | none => simp [Pool.try_get, hrec] at ha
  | some r =>
    by_cases hg : r.generation = h.generation
    · simp only [Pool.try_get, hrec, if_pos hg] at ha
      simp [Pool.try_get, Pool.update, hrec, hg, ha]
    · simp [Pool.try_get, hrec, if_neg hg] at ha

/-- An update at one handle does not change lookups at handles with a
different slot index. -/
lemma try_get_update_other {α : Type} (p : Pool α) (h h2 : PoolHandle) (f : α → α)
    (hne : h2.index ≠ h.index) : (p.update h f).try_get h2 = p.try_get h2 := by
  cases hrec : p.records[h2.index]? with
  | none => simp [Pool.try_get, Pool.update, hrec]
  | some r => simp [Pool.try_get, Pool.update, hrec, hne]

/-- C9: applying RewindAnimation, EnableAnimation or DisableAnimation with
a handle absent from the container is a no-op leaving the container
unchanged; with a present handle the targeted animation is rewound,
enabled or disabled respectively, other slots untouched. -/
theorem claim9_state_action_apply (c : AnimationContainer) (h : PoolHandle) :
    (c.pool.try_get h = none →
      (StateAction.rewindAnimation h).apply c = c ∧
      (StateAction.enableAnimation h).apply c = c ∧
      (StateAction.disableAnimation h).apply c = c) ∧
    (∀ a, c.pool.try_get h = some a →
      ((StateAction.rewindAnimation h).apply c).pool.try_get h = some a.rewind ∧
      ((StateAction.enableAnimation h).apply c).pool.try_get h =
        some (a.set_enabled true) ∧
      ((StateAction.disableAnimation h).apply c).pool.try_get h =
        some (a.set_enabled false) ∧
      (∀ h2, h2.index ≠ h.index →
        ((StateAction.rewindAnimation h).apply c).pool.try_get h2 = c.pool.try_get h2 ∧
        ((StateAction.enableAnimation h).apply c).pool.try_get h2 = c.pool.try_get h2 ∧
        ((StateAction.disableAnimation h).apply c).pool.try_get h2 = c.pool.try_get h2)) := by
  constructor
  · intro hnone
    refine ⟨?_, ?_, ?_⟩ <;> simp [StateAction.apply, hnone]
  · intro a ha
    refine ⟨?_, ?_, ?_, ?_⟩
    · simp only [StateAction.apply, ha]
      exact try_get_update_self c.pool h _ a ha
    · simp only [StateAction.apply, ha]
      exact try_get_update_self c.pool h _ a ha
    · simp only [StateAction.apply, ha]
      exact try_get_update_self c.pool h _ a ha
    · intro h2 hne
      refine ⟨?_, ?_, ?_⟩ <;>
        simp only [StateAction.apply, ha] <;>
        exact try_get_update_other c.pool h h2 _ hne

/-- Witness for C9: on a one slot container, applying a disable action at a
stale generation handle is a no-op, and applying it at the live handle
disables the animation. -/
theorem claim9_witness :
    (StateAction.disableAnimation ⟨0, 5⟩).apply
      (AnimationContainer.new.add Animation.default).2 =
      (AnimationContainer.new.add Animation.default).2 ∧
    ((StateAction.disableAnimation ⟨0, 0⟩).apply
      (AnimationContainer.new.add Animation.default).2).pool.try_get ⟨0, 0⟩ =
      some (Animation.default.set_enabled false) := by
  refine ⟨((claim9_state_action_apply
    (AnimationContainer.new.add Animation.default).2 ⟨0, 5⟩).1 rfl).2.2, ?_⟩
  exact ((claim9_state_action_apply
    (AnimationContainer.new.add Animation.default).2 ⟨0, 0⟩).2 Animation.default rfl).2.2.1

/-- The signal loop reads only the time and id of each signal, never its
enabled flag, so reflagging the signals leaves the produced events
unchanged. -/
lemma processSignals_set_enabled (flags : AnimationSignal → Bool)
    (signals : List AnimationSignal) (t0 t1 : Scalar) :
    ∀ events, processSignals (signals.map (fun s => s.set_enabled (flags s))) t0 t1 events =
      processSignals signals t0 t1 events := by
  induction signals with
  | nil =>
    intro events
    rfl
  | cons s rest ih =>
    intro events
    simp only [List.map_cons, processSignals, AnimationSignal.set_enabled]
    exact ih _

/-- C10: event generation in tick is independent of the enabled flag of
each signal — reflagging every signal arbitrarily (through set_enabled)
yields the same event queue, and a strictly forward crossed signal whose
flag is false still enqueues its event whenever the crossings of the tick
fit under the 32 entry cap. -/
theorem claim10_signal_enabled_ignored (slerp : QuatInterp) (a : Animation) (dt : Scalar)
    (flags : AnimationSignal → Bool) :
    ((Animation.tick slerp
        { a with signals := a.signals.map (fun s => s.set_enabled (flags s)) } dt).events =
      (a.tick slerp dt).events) ∧
    (∀ s ∈ a.signals, s.enabled = false →
      a.time_position < s.time → s.time ≤ a.time_position + dt * a.speed →
      a.events.length + (crossedEvents a.signals a.time_position
        (a.time_position + dt * a.speed)).length ≤ 32 →
      AnimationEvent.mk s.id ∈ (a.tick slerp dt).events) := by
  constructor
  · simp only [Animation.tick, Animation.update_pose, Animation.set_time_position]
    split
    · simp [processSignals_set_enabled]
    · simp [processSignals_set_enabled]
  · intro s hs hdis h0 h1 hfit
    rw [tick_events_eq]
    have hmem : AnimationEvent.mk s.id ∈ crossedEvents a.signals a.time_position
        (a.time_position + dt * a.speed) := by
      rw [crossedEvents]
      exact List.mem_map.mpr ⟨s, List.mem_filter.mpr ⟨hs, by simpa using ⟨h0, h1⟩⟩, rfl⟩
    have htake : (crossedEvents a.signals a.time_position
        (a.time_position + dt * a.speed)).take (32 - a.events.length) =
        crossedEvents a.signals a.time_position (a.time_position + dt * a.speed) :=
      List.take_of_length_le (by omega)
    rw [htake]
    exact List.mem_append.mpr (Or.inr hmem)

/-- Concrete animation with one disabled signal, for the C10 witness. -/
def disSigAnim : Animation :=
  { Animation.default with length := 10, time_position := 4, signals := [⟨7, 5, false⟩] }

/-- Witness for C10: a disabled signal at time 5, crossed by a tick from 4
by 2, still produces its event. -/
theorem claim10_witness :
    AnimationEvent.mk 7 ∈ (disSigAnim.tick (fun q _ _ => q) 2).events := by
  refine (claim10_signal_enabled_ignored (fun q _ _ => q) disSigAnim 2
    (fun _ => true)).2 ⟨7, 5, false⟩ (by decide) rfl (by norm_num [disSigAnim]) ?_ ?_
  · norm_num [disSigAnim, Animation.default]
  · norm_num [disSigAnim, Animation.default, crossedEvents]

/-- Inserting a pose binds its own node to it. -/
lemma lookup_poseInsert_self (l : List (NodeHandle × LocalPose)) (lp : LocalPose) :
    AnimationPose.lookup ⟨poseInsert l lp⟩ lp.node = some lp := by
  simp [AnimationPose.lookup, poseInsert, List.find?_cons_of_pos]

/-- Inserting a pose leaves lookups at other keys unchanged. -/
lemma lookup_poseInsert_ne (l : List (NodeHandle × LocalPose)) (lp : LocalPose)
    (k : NodeHandle) (h : k ≠ lp.node) :
    AnimationPose.lookup ⟨poseInsert l lp⟩ k = AnimationPose.lookup ⟨l⟩ k := by
  simp only [AnimationPose.lookup, poseInsert]
  rw [List.find?_cons_of_neg]
  simpa using fun he => absurd he.symm h

/-- Updating a bound key rebinds it to the new pose. -/
lemma lookup_poseUpdate_self (l : List (NodeHandle × LocalPose)) (k : NodeHandle)
    (v cur : LocalPose) (hs : AnimationPose.lookup ⟨l⟩ k = some cur) :
    AnimationPose.lookup ⟨poseUpdate l k v⟩ k = some v := by
  induction l with
  | nil => simp [AnimationPose.lookup] at hs
  | cons e rest ih =>
    by_cases he : e.1 = k
    · simp [AnimationPose.lookup, poseUpdate, he]
    · have hb : (e.1 == k) = false := by simpa using he
      simp only [AnimationPose.lookup, poseUpdate] at hs ih ⊢
      rw [@List.find?_cons_of_neg _ (fun x => x.1 == k) e rest (by simpa using he)] at hs
      rw [hb]
      simp only [Bool.false_eq_true, if_false]
      rw [@List.find?_cons_of_neg _ (fun x => x.1 == k) e (poseUpdate rest k v)
        (by simpa using he)]
      exact ih hs

/-- Updating one key leaves lookups at other keys unchanged. -/
lemma lookup_poseUpdate_ne (l : List (NodeHandle × LocalPose)) (k k2 : NodeHandle)
    (v : LocalPose) (h : k2 ≠ k) :
    AnimationPose.lookup ⟨poseUpdate l k v⟩ k2 = AnimationPose.lookup ⟨l⟩ k2 := by
  induction l with
  | nil => rfl
  | cons e rest ih =>
    simp only [AnimationPose.lookup, poseUpdate] at ih ⊢
    by_cases he : e.1 = k
    · have hne : ¬ (e.1 == k2) = true := by
        simp only [beq_iff_eq, he]
        exact fun hk => absurd hk.symm h
      rw [if_pos (by simpa using he)]
      rw [@List.find?_cons_of_neg _ (fun x => x.1 == k2) (e.1, v) (poseUpdate rest k v)
        (by simpa using hne)]
      rw [@List.find?_cons_of_neg _ (fun x => x.1 == k2) e rest hne]
      exact ih
    · rw [if_neg (by simpa using he)]
      by_cases he2 : e.1 = k2
      · rw [@List.find?_cons_of_pos _ (fun x => x.1 == k2) e (poseUpdate rest k v)
          (by simpa using he2)]
        rw [@List.find?_cons_of_pos _ (fun x => x.1 == k2) e rest (by simpa using he2)]
      · rw [@List.find?_cons_of_neg _ (fun x => x.1 == k2) e (poseUpdate rest k v)
          (by simpa using he2)]
        rw [@List.find?_cons_of_neg _ (fun x => x.1 == k2) e rest (by simpa using he2)]
        exact ih

/-- The blend loop leaves lookups at keys absent from the processed
entries unchanged. -/
lemma blendLoop_lookup_not_mem (nlerp : QuatInterp) (w : Scalar) :
    ∀ (entries acc : List (NodeHandle × LocalPose)) (k : NodeHandle),
    (∀ e ∈ entries, e.1 ≠ k) → (∀ e ∈ entries, e.2.node = e.1) →
    AnimationPose.lookup ⟨entries.foldl (blendStep nlerp w) acc⟩ k =
      AnimationPose.lookup ⟨acc⟩ k := by
  intro entries
  induction entries with
  | nil =>
    intro acc k _ _
    rfl
  | cons e rest ih =>
    intro acc k hk hwf
    rw [List.foldl_cons, ih _ k (fun e2 he2 => hk e2 (List.mem_cons_of_mem e he2))
      (fun e2 he2 => hwf e2 (List.mem_cons_of_mem e he2))]
    cases hfind : (acc.find? (fun a => a.1 == e.1)).map (fun a => a.2) with
    | some cur =>
      rw [blendStep, hfind]
      exact lookup_poseUpdate_ne acc e.1 k (cur.blend_with nlerp e.2 w)
        (Ne.symm (hk e (List.mem_cons_self e rest)))
    | none =>
      rw [blendStep, hfind]
      refine lookup_poseInsert_ne acc _ k ?_
      rw [LocalPose.weighted_clone]
      rw [hwf e (List.mem_cons_self e rest)]
      exact Ne.symm (hk e (List.mem_cons_self e rest))

/-- Head binding of a pose list. -/
lemma lookup_cons_self (e : NodeHandle × LocalPose) (rest : List (NodeHandle × LocalPose)) :
    AnimationPose.lookup ⟨e :: rest⟩ e.1 = some e.2 := by
  simp [AnimationPose.lookup]

/-- Lookups at other keys skip the head binding. -/
lemma lookup_cons_ne (e : NodeHandle × LocalPose) (rest : List (NodeHandle × LocalPose))
    (k : NodeHandle) (hk : k ≠ e.1) :
    AnimationPose.lookup ⟨e :: rest⟩ k = AnimationPose.lookup ⟨rest⟩ k := by
  simp only [AnimationPose.lookup]
  rw [@List.find?_cons_of_neg _ (fun x => x.1 == k) e rest
    (by simpa using fun h => hk h.symm)]

/-- A key outside the key set of a pose list is unbound. -/
lemma lookup_eq_none_of_not_mem (l : List (NodeHandle × LocalPose)) (k : NodeHandle)
    (hk : k ∉ l.map Prod.fst) : AnimationPose.lookup ⟨l⟩ k = none := by
  simp only [AnimationPose.lookup]
  rw [List.find?_eq_none.mpr]
  · rfl
  · intro x hx
    simp only [beq_iff_eq]
    exact fun he => hk (he ▸ List.mem_map_of_mem Prod.fst hx)

/-- Lookup characterization of the blend loop: a key bound on both sides is
blended in place, a key bound only in the processed entries receives the
weighted clone, and a key absent from the entries keeps its binding. -/
lemma blendLoop_lookup (nlerp : QuatInterp) (w : Scalar) :
    ∀ (entries acc : List (NodeHandle × LocalPose)),
    (entries.map Prod.fst).Nodup → (∀ e ∈ entries, e.2.node = e.1) → ∀ k,
    AnimationPose.lookup ⟨entries.foldl (blendStep nlerp w) acc⟩ k =
      match AnimationPose.lookup ⟨acc⟩ k, AnimationPose.lookup ⟨entries⟩ k with
      | some pA, some pB => some (pA.blend_with nlerp pB w)
      | Option.none, some pB => some (pB.weighted_clone nlerp w)
      | _, Option.none => AnimationPose.lookup ⟨acc⟩ k := by
  intro entries
  induction entries with
  | nil =>
    intro acc _ _ k
    show AnimationPose.lookup ⟨acc⟩ k = _
    cases AnimationPose.lookup ⟨acc⟩ k <;> rfl
  | cons e rest ih =>
    intro acc hnd hwf k
    have hnotmem : e.1 ∉ rest.map Prod.fst := (List.nodup_cons.mp (by simpa using hnd)).1
    have hndr : (rest.map Prod.fst).Nodup := (List.nodup_cons.mp (by simpa using hnd)).2
    have hwfr : ∀ e2 ∈ rest, e2.2.node = e2.1 :=
      fun e2 he2 => hwf e2 (List.mem_cons_of_mem e he2)
    have hnodeE : (e.2.weighted_clone nlerp w).node = e.1 := by
      rw [LocalPose.weighted_clone]
      exact hwf e (List.mem_cons_self e rest)
    rw [List.foldl_cons, ih (blendStep nlerp w acc e) hndr hwfr k]
    by_cases hk : k = e.1
    · subst hk
      rw [lookup_eq_none_of_not_mem rest e.1 hnotmem, lookup_cons_self e rest]
      cases hA : AnimationPose.lookup ⟨acc⟩ e.1 with
      | some pA =>
        have hstep : AnimationPose.lookup ⟨blendStep nlerp w acc e⟩ e.1 =
            some (pA.blend_with nlerp e.2 w) := by
          rw [blendStep, show (acc.find? (fun a => a.1 == e.1)).map (fun a => a.2) =
            some pA from hA]
          exact lookup_poseUpdate_self acc e.1 _ pA hA
        rw [hstep]
      | none =>
        have hstep : AnimationPose.lookup ⟨blendStep nlerp w acc e⟩ e.1 =
            some (e.2.weighted_clone nlerp w) := by
          rw [blendStep, show (acc.find? (fun a => a.1 == e.1)).map (fun a => a.2) =
            none from hA]
          have h2 := lookup_poseInsert_self acc (e.2.weighted_clone nlerp w)
          rw [hnodeE] at h2
          exact h2
        rw [hstep]
    · have hstep : AnimationPose.lookup ⟨blendStep nlerp w acc e⟩ k =
          AnimationPose.lookup ⟨acc⟩ k := by
        cases hA : (acc.find? (fun a => a.1 == e.1)).map (fun a => a.2) with
        | some cur =>
          rw [blendStep, hA]
          exact lookup_poseUpdate_ne acc e.1 k (cur.blend_with nlerp e.2 w) hk
        | none =>
          rw [blendStep, hA]
          exact lookup_poseInsert_ne acc (e.2.weighted_clone nlerp w) k (hnodeE ▸ hk)
      rw [hstep, lookup_cons_ne e rest k hk]

/-- C6: blending pose B into pose A with weight w processes every target
of B — a target already bound in A is blended in place (position
incremented by the scaled B position, rotation nlerped toward the B
rotation, scale kept), a target unbound in A receives the weighted clone
of the B pose (position scaled by w, rotation nlerped from identity,
scale at the neutral unit factor), and targets absent from B keep their
binding in A. -/
theorem claim6_blend_with (nlerp : QuatInterp) (A B : AnimationPose) (w : Scalar)
    (hB : (B.local_poses.map Prod.fst).Nodup)
    (hwf : ∀ e ∈ B.local_poses, e.2.node = e.1) (k : NodeHandle) :
    (A.blend_with nlerp B w).lookup k =
      match A.lookup k, B.lookup k with
      | some pA, some pB => some ⟨pA.node, pA.position + pB.position.scale w,
          pA.scale, nlerp pA.rotation pB.rotation w⟩
      | Option.none, some pB => some ⟨pB.node, pB.position.scale w, Vec3.UNIT,
          nlerp Quat.IDENTITY pB.rotation w⟩
      | _, Option.none => A.lookup k := by
  obtain ⟨al⟩ := A
  obtain ⟨bl⟩ := B
  have h := blendLoop_lookup nlerp w bl al hB hwf k
  rw [AnimationPose.blend_with]
  rw [h]
  cases AnimationPose.lookup ⟨al⟩ k <;> cases AnimationPose.lookup ⟨bl⟩ k <;> rfl

/-- Poses for the C6 witness. -/
def pA0 : LocalPose := ⟨1, ⟨1, 0, 0⟩, ⟨7, 7, 7⟩, Quat.IDENTITY⟩

def pB0 : LocalPose := ⟨1, ⟨2, 0, 0⟩, ⟨3, 3, 3⟩, ⟨1, 0, 0, 0⟩⟩

def pC0 : LocalPose := ⟨2, ⟨4, 0, 0⟩, ⟨5, 5, 5⟩, ⟨0, 1, 0, 0⟩⟩

/-- Witness for C6: with B holding targets 1 and 2 and A holding only
target 1, blending keeps the A scale on target 1 and gives target 2 the
weighted clone with unit scale. -/
theorem claim6_witness :
    (AnimationPose.blend_with (fun _ b _ => b) ⟨[(1, pA0)]⟩ ⟨[(1, pB0), (2, pC0)]⟩ 1).lookup 1 =
      some ⟨pA0.node, pA0.position + pB0.position.scale 1, pA0.scale, pB0.rotation⟩ ∧
    (AnimationPose.blend_with (fun _ b _ => b) ⟨[(1, pA0)]⟩ ⟨[(1, pB0), (2, pC0)]⟩ 1).lookup 2 =
      some ⟨pC0.node, pC0.position.scale 1, Vec3.UNIT, pC0.rotation⟩ := by
  constructor
  · exact claim6_blend_with (fun _ b _ => b) ⟨[(1, pA0)]⟩ ⟨[(1, pB0), (2, pC0)]⟩ 1
      (by decide) (by decide) 1
  · exact claim6_blend_with (fun _ b _ => b) ⟨[(1, pA0)]⟩ ⟨[(1, pB0), (2, pC0)]⟩ 1
      (by decide) (by decide) 2

/-- A list search returns the entry at the first satisfying index. -/
lemma find?_eq_some_of_first {α : Type} (p : α → Bool) :
    ∀ (l : List α) (j : Nat) (hj : j < l.length),
    p (l.get ⟨j, hj⟩) → (∀ j2 (hj2 : j2 < j), ¬ p (l.get ⟨j2, Nat.lt_trans hj2 hj⟩)) →
    l.find? p = some (l.get ⟨j, hj⟩)
  | a :: rest, 0, hj, hp, _ => by
    rw [@List.find?_cons_of_pos _ p a rest (by exact hp)]
    rfl
  | a :: rest, j + 1, hj, hp, hprev => by
    have ha : ¬ p a = true := hprev 0 (Nat.succ_pos j)
    rw [@List.find?_cons_of_neg _ p a rest ha]
    exact find?_eq_some_of_first p rest j (Nat.lt_of_succ_lt_succ hj) hp
      (fun j2 hj2 => hprev (j2 + 1) (Nat.succ_lt_succ hj2))

/-- The incremental maximum of set_key_frames is the fold of max over the
frame times. -/
lemma foldl_max_time (kfs : List KeyFrame) :
    ∀ init : Scalar, kfs.foldl (fun m k => if m < k.time then k.time else m) init =
      (kfs.map KeyFrame.time).foldl max init := by
  induction kfs with
  | nil =>
    intro init
    rfl
  | cons k rest ih =>
    intro init
    simp only [List.foldl_cons, List.map_cons]
    rw [ih]
    congr 1
    rw [max_def]
    by_cases h : init < k.time
    · rw [if_pos h, if_pos (le_of_lt h)]
    · rw [if_neg h]
      by_cases h2 : init ≤ k.time
      · rw [if_pos h2]
        exact le_antisymm h2 (not_lt.mp h)
      · rw [if_neg h2]

/-- C7: resolve with a resource whose first animation slot is occupied
maps every track either to a copy of the keyframes of the first reference
track whose bound node name (in the resource graph) equals the name of
the bound node of the track (in the scene graph) — through
set_key_frames, which recomputes max_time as the maximum of the new frame
times — or, when no reference track matches, leaves the track untouched
and continues with the remaining tracks. -/
theorem claim7_resolve (graph : GraphNames) (a : Animation) (res : ModelResource)
    (refA : RefAnimation) (hres : a.resource = some res)
    (hfirst : (res.animations[0]?).bind id = some refA) :
    ((a.resolve graph).tracks.length = a.tracks.length) ∧
    (∀ i (hi : i < a.tracks.length),
      (∀ rt ∈ refA.tracks, ¬ graph (a.tracks.get ⟨i, hi⟩).node = res.graphName rt.node) →
      (a.resolve graph).tracks[i]? = some (a.tracks.get ⟨i, hi⟩)) ∧
    (∀ i (hi : i < a.tracks.length) (j : Nat) (hj : j < refA.tracks.length),
      graph (a.tracks.get ⟨i, hi⟩).node = res.graphName (refA.tracks.get ⟨j, hj⟩).node →
      (∀ j2 (hj2 : j2 < j), ¬ graph (a.tracks.get ⟨i, hi⟩).node =
        res.graphName (refA.tracks.get ⟨j2, Nat.lt_trans hj2 hj⟩).node) →
      (a.resolve graph).tracks[i]? =
        some ((a.tracks.get ⟨i, hi⟩).set_key_frames (refA.tracks.get ⟨j, hj⟩).frames)) ∧
    (∀ (tr2 : Track) (kfs : List KeyFrame), (tr2.set_key_frames kfs).frames = kfs ∧
      (tr2.set_key_frames kfs).max_time = (kfs.map KeyFrame.time).foldl max 0) := by
  have hres2 : a.resolve graph = { a with tracks := a.tracks.map (fun track =>
      match refA.tracks.find?
          (fun ref_track => graph track.node == res.graphName ref_track.node) with
      | some ref_track => track.set_key_frames ref_track.frames
      | none => track) } := by
    simp only [Animation.resolve, hres, hfirst]
  have hmap : ∀ (i : Nat) (hi : i < a.tracks.length),
      (a.resolve graph).tracks[i]? = some (match refA.tracks.find?
        (fun ref_track => graph (a.tracks.get ⟨i, hi⟩).node ==
          res.graphName ref_track.node) with
      | some ref_track => (a.tracks.get ⟨i, hi⟩).set_key_frames ref_track.frames
      | none => a.tracks.get ⟨i, hi⟩) := by
    intro i hi
    rw [hres2]
    simp [List.getElem?_eq_getElem hi]
  refine ⟨by simp [hres2], ?_, ?_, ?_⟩
  · intro i hi hnone
    have hfind : refA.tracks.find?
        (fun ref_track => graph (a.tracks.get ⟨i, hi⟩).node ==
          res.graphName ref_track.node) = none :=
      List.find?_eq_none.mpr (fun rt hrt => by simpa using hnone rt hrt)
    rw [hmap i hi, hfind]
  · intro i hi j hj hmatch hprev
    have hfind := find?_eq_some_of_first
      (fun ref_track => graph (a.tracks.get ⟨i, hi⟩).node == res.graphName ref_track.node)
      refA.tracks j hj (by simpa using hmatch)
      (fun j2 hj2 => by simpa using hprev j2 hj2)
    rw [hmap i hi, hfind]
  · intro tr2 kfs
    exact ⟨rfl, foldl_max_time kfs 0⟩

/-- Reference track and resource for the C7 witness: the resource names
node 5 the same as the scene names node 3. -/
def refTrack0 : Track := ⟨[kfAt 1, kfAt 2], true, 2, 5⟩

def res0 : ModelResource :=
  ⟨[some ⟨[refTrack0]⟩], fun n => if n = 5 then "Hand" else "Other"⟩

/-- Animation with two tracks for the C7 witness: the track bound to node 3
(named Hand in the scene) matches the reference, the track bound to node
4 does not. -/
def resolveAnim : Animation :=
  { Animation.default with
      resource := some res0
      tracks := [⟨[], true, 0, 3⟩, ⟨[], true, 0, 4⟩] }

/-- Scene graph names for the C7 witness. -/
def graph0 : GraphNames := fun n => if n = 3 then "Hand" else "Foot"

/-- Witness for C7: resolving copies the reference keyframes into the
matching track, recomputing its max_time, and leaves the unmatched track
untouched. -/
theorem claim7_witness :
    (resolveAnim.resolve graph0).tracks[0]? =
      some ((⟨[], true, 0, 3⟩ : Track).set_key_frames refTrack0.frames) ∧
    (resolveAnim.resolve graph0).tracks[1]? = some (⟨[], true, 0, 4⟩ : Track) ∧
    ((⟨[], true, 0, 3⟩ : Track).set_key_frames refTrack0.frames).max_time =
      ([kfAt 1, kfAt 2].map KeyFrame.time).foldl max 0 := by
  have h := claim7_resolve graph0 resolveAnim res0 ⟨[refTrack0]⟩ rfl rfl
  refine ⟨?_, ?_, ?_⟩
  · exact h.2.2.1 0 (by decide) 0 (by decide) (by decide) (fun j2 hj2 => absurd hj2 (by omega))
  · exact h.2.1 1 (by decide) (by decide)
  · exact (h.2.2.2 (⟨[], true, 0, 3⟩ : Track) refTrack0.frames).2

/-- C5: get_local_pose on a track with sorted frames returns nothing for
an empty track; the last frame verbatim when the query time reaches
max_time (no extrapolation); the first frame verbatim when the first
frame with time at or above the clamped query time sits at index 0; and
otherwise the pose interpolated between the two neighbor frames with
t = (clamped time - left.time) / (right.time - left.time), position and
scale linearly, rotation by the spherical interpolation at the same t. -/
theorem claim5_get_local_pose (slerp : QuatInterp) (tr : Track) (time : Scalar)
    (hsort : timeSorted tr.frames) :
    (tr.frames = [] → tr.get_local_pose slerp time = none) ∧
    (∀ h : tr.frames ≠ [], tr.max_time ≤ time →
      tr.get_local_pose slerp time = some ⟨tr.node, (tr.frames.getLast h).position,
        (tr.frames.getLast h).scale, (tr.frames.getLast h).rotation⟩) ∧
    (∀ h0 : 0 < tr.frames.length, time < tr.max_time →
      clampf time 0 tr.max_time ≤ tr.frames[0].time →
      tr.get_local_pose slerp time = some ⟨tr.node, tr.frames[0].position,
        tr.frames[0].scale, tr.frames[0].rotation⟩) ∧
    (∀ (i : Nat) (hi : i < tr.frames.length) (hi1 : i + 1 < tr.frames.length),
      time < tr.max_time →
      tr.frames[i].time < clampf time 0 tr.max_time →
      clampf time 0 tr.max_time ≤ tr.frames[i + 1].time →
      tr.get_local_pose slerp time = some ⟨tr.node,
        (tr.frames[i]).position.lerp (tr.frames[i + 1]).position
          ((clampf time 0 tr.max_time - tr.frames[i].time) /
            (tr.frames[i + 1].time - tr.frames[i].time)),
        (tr.frames[i]).scale.lerp (tr.frames[i + 1]).scale
          ((clampf time 0 tr.max_time - tr.frames[i].time) /
            (tr.frames[i + 1].time - tr.frames[i].time)),
        slerp (tr.frames[i]).rotation (tr.frames[i + 1]).rotation
          ((clampf time 0 tr.max_time - tr.frames[i].time) /
            (tr.frames[i + 1].time - tr.frames[i].time))⟩) := by
  refine ⟨?_, ?_, ?_, ?_⟩
  · intro h
    rw [Track.get_local_pose, if_pos h]
  · intro h hle
    rw [Track.get_local_pose, if_neg h, if_pos hle, List.getLast?_eq_getLast tr.frames h]
    rfl
  · intro h0 htm hle0
    have hne : tr.frames ≠ [] := List.ne_nil_of_length_pos h0
    have hfind : tr.frames.findIdx?
        (fun k => decide (clampf time 0 tr.max_time ≤ k.time)) = some 0 :=
      List.findIdx?_eq_some_iff_getElem.mpr
        ⟨h0, by simpa using hle0, fun j hj => absurd hj (Nat.not_lt_zero j)⟩
    simp only [Track.get_local_pose, if_neg hne, if_neg (not_le.mpr htm), hfind]
    simp [List.head?_eq_getElem?, List.getElem?_eq_getElem h0]
  · intro i hi hi1 htm hlt hle
    have hne : tr.frames ≠ [] :=
      List.ne_nil_of_length_pos (Nat.lt_of_le_of_lt (Nat.zero_le (i + 1)) hi1)
    have hfind : tr.frames.findIdx?
        (fun k => decide (clampf time 0 tr.max_time ≤ k.time)) = some (i + 1) := by
      refine List.findIdx?_eq_some_iff_getElem.mpr ⟨hi1, by simpa using hle, ?_⟩
      intro j hj
      simp only [decide_eq_true_eq, not_le]
      have hji : j ≤ i := Nat.lt_succ_iff.mp hj
      rcases Nat.lt_or_ge j i with hlt2 | hge
      · exact lt_of_le_of_lt
          (List.pairwise_iff_getElem.mp hsort j i (Nat.lt_trans hj hi1) hi hlt2) hlt
      · have : j = i := Nat.le_antisymm hji hge
        subst this
        exact hlt
    simp only [Track.get_local_pose, if_neg hne, if_neg (not_le.mpr htm), hfind]
    simp [List.getElem?_eq_getElem hi, List.getElem?_eq_getElem hi1, Nat.add_sub_cancel]

/-- Track with frames at times 0, 1 and 2 for the C5 witness. -/
def triTrack : Track := ⟨[kfAt 0, kfAt 1, kfAt 2], true, 2, 0⟩

/-- Witness for C5: on the track with frames at times 0, 1 and 2, querying
at 5 returns the last frame verbatim, at a negative time the first frame
verbatim, and the in-between branch applies between indices 1 and 2. -/
theorem claim5_witness :
    (triTrack.get_local_pose (fun q _ _ => q) 5 = some ⟨0, (kfAt 2).position,
      (kfAt 2).scale, (kfAt 2).rotation⟩) ∧
    (triTrack.get_local_pose (fun q _ _ => q) (-1) = some ⟨0, (kfAt 0).position,
      (kfAt 0).scale, (kfAt 0).rotation⟩) ∧
    (triTrack.get_local_pose (fun q _ _ => q) (3 / 2) = some ⟨0,
      (kfAt 1).position.lerp (kfAt 2).position
        ((clampf (3 / 2) 0 2 - (1 : Scalar)) / ((2 : Scalar) - 1)),
      (kfAt 1).scale.lerp (kfAt 2).scale
        ((clampf (3 / 2) 0 2 - (1 : Scalar)) / ((2 : Scalar) - 1)),
      (kfAt 1).rotation⟩) := by
  have h := claim5_get_local_pose (fun q _ _ => q) triTrack 5 (by decide)
  have h2 := claim5_get_local_pose (fun q _ _ => q) triTrack (-1) (by decide)
  have h3 := claim5_get_local_pose (fun q _ _ => q) triTrack (3 / 2) (by decide)
  refine ⟨h.2.1 (by decide) (by decide), h2.2.2.1 (by decide) (by decide) ?_, ?_⟩
  · show clampf (-1) 0 triTrack.max_time ≤ (kfAt 0).time
    norm_num [clampf, triTrack, kfAt, KeyFrame.default]
  · have hmain := h3.2.2.2 1 (by decide) (by decide) (by norm_num [triTrack])
      (by norm_num [clampf, triTrack, kfAt, KeyFrame.default])
      (by norm_num [clampf, triTrack, kfAt, KeyFrame.default])
    exact hmain

end Fyrox
